import Mathlib

/-!
Verification of the inventory-consistency protocol of the ecom-admin-api
repository (Node.js + Express + PostgreSQL).

The embedding models the three mutation paths that touch the `inventory`
and `inventory_history` tables:

* `POST /api/products`  (src/routes/products.js, lines 78-154)
* `POST /api/sales`     (src/routes/sales.js, lines 308-389)
* `PUT  /api/inventory/:product_id` (routes/inventory.js, lines 64-137)

The database is modelled as an explicit state record.  Each `db.query`
call in the source is a single statement run through `pool.query`
(src/db/db.js, lines 20-23), i.e. its own auto-commit transaction: there
is no `BEGIN`/`COMMIT` anywhere in the repository, so consecutive
statements of one handler are independently persisted and any
`FOR UPDATE` row lock is released as soon as its own statement commits.
Product/category names, descriptions and timestamps are omitted: no
claim mentions them.  Prices are modelled as exact integers (cents);
no claim depends on float rounding of `total_price`.
-/

/-- Row of the append-only `inventory_history` table
(src/db/schema.sql, lines 31-38). -/
structure HistEntry where
  product_id : Nat
  change_qty : Int
  previous_qty : Int
  new_qty : Int
deriving DecidableEq, Repr

/-- Row of the `sales` table (src/db/schema.sql, lines 43-49);
`sale_date` is omitted (no claim depends on it). -/
structure SaleRow where
  product_id : Nat
  quantity : Int
  total_price : Int
deriving DecidableEq, Repr

/-- Database state.  `products` and `inventory` are association lists
from product id to price resp. quantity; `nextId` models the SERIAL
product-id sequence. -/
structure DBState where
  nextId : Nat
  categories : List Nat
  products : List (Nat × Int)
  inventory : List (Nat × Int)
  history : List HistEntry
  sales : List SaleRow
deriving DecidableEq, Repr

/-- First value bound to a key in an association list; models
`SELECT ... WHERE product_id = $1` returning `rows[0]`. -/
def findVal : List (Nat × Int) → Nat → Option Int
  | [], _ => none
  | (k, v) :: rest, key => if k = key then some v else findVal rest key

/-- Models `UPDATE inventory SET quantity = $1 WHERE product_id = $2`:
every row with the key gets the new value; a missing key is a no-op
(no row inserted). -/
def updateQty : List (Nat × Int) → Nat → Int → List (Nat × Int)
  | [], _, _ => []
  | (k, v) :: rest, pid, q =>
      (if k = pid then (k, q) else (k, v)) :: updateQty rest pid q

/-- Quantity a reader sees for a product: the inventory row's quantity,
or 0 when no row exists (`COALESCE(i.quantity, 0)` in the readers, and
`invRes.rows[0]?.quantity || 0` in the sale handler). -/
def effQty (st : DBState) (pid : Nat) : Int :=
  (findVal st.inventory pid).getD 0

/-- History rows of one product in chronological (insertion) order,
as `SELECT ... WHERE product_id = $1` would return them. -/
def histFor : List HistEntry → Nat → List HistEntry
  | [], _ => []
  | e :: rest, pid =>
      if e.product_id = pid then e :: histFor rest pid else histFor rest pid

/-- Sum of `change_qty` over one product's history rows. -/
def histSum (l : List HistEntry) (pid : Nat) : Int :=
  ((histFor l pid).map HistEntry.change_qty).sum

/-- Adjacency relation of the ledger chain: one entry's `new_qty` is the
next entry's `previous_qty`. -/
def chainsTo (a b : HistEntry) : Prop := a.new_qty = b.previous_qty

instance : DecidableRel chainsTo :=
  fun a b => (inferInstance : Decidable (a.new_qty = b.previous_qty))

/-- A product's history, ordered chronologically, forms a strict chain. -/
abbrev Chained (l : List HistEntry) : Prop := List.Chain' chainsTo l

/-- The `new_qty` of the last history entry, 0 for an empty history. -/
def lastNew (l : List HistEntry) : Int :=
  match l.getLast? with
  | none => 0
  | some e => e.new_qty

/-- Error messages of the JSON error bodies (the exact strings of the
source are recorded in comments on each use site). -/
inductive ErrMsg where
  | validProductIdRequired
  | quantityMustBePositive
  | productNotFound
  | newQuantityInvalid
  | priceInvalid
  | categoryIdInvalid
  | initialQuantityInvalid
deriving DecidableEq, Repr

/-- HTTP responses of the three handlers.  Each constructor records the
status and the JSON body shape it models. -/
inductive Resp where
  /-- 201 with the sale row (product and category join fields omitted). -/
  | createdSale (product_id : Nat) (quantity total_price : Int)
  /-- 201 with the product row joined with its inventory quantity. -/
  | createdProduct (id : Nat) (price quantity : Int)
  /-- 200 with body of shape product_id, previous_quantity, new_quantity
  (routes/inventory.js, lines 129-133). -/
  | invUpdated (product_id : Nat) (previous_quantity new_quantity : Int)
  /-- 200 with body of shape product_id, quantity — the lazy-creation
  branch (routes/inventory.js, line 110); it has no previous_quantity
  or new_quantity key. -/
  | invCreated (product_id : Nat) (quantity : Int)
  /-- 400 with an error body. -/
  | badRequest (msg : ErrMsg)
  /-- 404 with an error body. -/
  | notFound (msg : ErrMsg)
  /-- 500 with body error = Internal Server Error, produced by the
  global error handler (index.js, lines 32-35) for any exception the
  route handler passes to next(err). -/
  | serverError
deriving DecidableEq, Repr

/-- Value supplied for `new_quantity` in a request body, as seen by the
validation `new_quantity == null || isNaN(parseInt(new_quantity, 10))`.
`null` also stands for undefined and for strings parseInt cannot parse;
`int n` is an integer (or an integral string); `decimal ip b` is a
non-integral number whose `parseInt` truncation is `ip`, with `b = true`
recording that the fractional part is nonzero. -/
inductive InputVal where
  | null
  | int (n : Int)
  | decimal (ipart : Int) (fracNonzero : Bool)
deriving DecidableEq, Repr

/-- Result of JavaScript `parseInt(v, 10)`: NaN (`none`) for null,
undefined or unparsable strings; truncation toward zero for decimal
numbers (parseInt of 3.7 is 3). -/
def jsParseInt : InputVal → Option Int
  | .null => none
  | .int n => some n
  | .decimal ip _ => some ip

/-- Injected fault point for one of the three INSERT statements of the
product-creation handler.  Because each statement is an independent
auto-commit `pool.query` (src/db/db.js, lines 20-23) with no
transaction in the handler, a statement that throws leaves all earlier
statements' effects committed; the catch block forwards the error to
the global 500 handler (src/routes/products.js, lines 151-153). -/
inductive FailPoint where
  | noFail
  | atProductInsert
  | atInventoryInsert
  | atHistoryInsert
deriving DecidableEq, Repr

/-- POST /api/products (src/routes/products.js, lines 78-154).
Validation mirrors lines 80-101 (`!category_id` makes a zero
category_id fail validation); the products INSERT throws a
foreign-key violation when the category does not exist
(schema.sql line 16), which reaches the global handler as a 500. -/
def createProduct (st : DBState) (cid : Nat) (price iq : Int)
    (fp : FailPoint) : Resp × DBState :=
  if price < 0 then (.badRequest .priceInvalid, st)
  else if cid = 0 then (.badRequest .categoryIdInvalid, st)
  else if iq < 0 then (.badRequest .initialQuantityInvalid, st)
  else if cid ∉ st.categories ∨ fp = .atProductInsert then
    (.serverError, st)
  else
    let pid := st.nextId
    let stP := { st with nextId := st.nextId + 1,
                         products := st.products ++ [(pid, price)] }
    if fp = .atInventoryInsert then (.serverError, stP)
    else
      let stI := { stP with inventory := stP.inventory ++ [(pid, iq)] }
      if fp = .atHistoryInsert then (.serverError, stI)
      else
        let stH := { stI with
                     history := stI.history ++ [HistEntry.mk pid iq 0 iq] }
        (.createdProduct pid price iq, stH)

/-- POST /api/sales (src/routes/sales.js, lines 308-389).  Validation
mirrors lines 310-321 (`!product_id` makes product id 0 fail; quantity
must parse to a positive integer).  Steps: price lookup (404 if the
product is missing), sale INSERT, inventory read (rows[0]?.quantity or
0), clamped decrement, inventory UPDATE (a no-op when no row exists),
history INSERT with change_qty equal to minus the requested quantity
(line 363). -/
def recordSale (st : DBState) (pid : Nat) (q : Int) : Resp × DBState :=
  if pid = 0 then (.badRequest .validProductIdRequired, st)
  else if q ≤ 0 then (.badRequest .quantityMustBePositive, st)
  else
    match findVal st.products pid with
    | none => (.notFound .productNotFound, st)
    | some price =>
      let totPrice := price * q
      let stS := { st with sales := st.sales ++ [SaleRow.mk pid q totPrice] }
      let currQty := (findVal stS.inventory pid).getD 0
      let newQty := max 0 (currQty - q)
      let stU := { stS with inventory := updateQty stS.inventory pid newQty }
      let stH := { stU with
                   history := stU.history ++ [HistEntry.mk pid (-q) currQty newQty] }
      (.createdSale pid q totPrice, stH)

/-- PUT /api/inventory/:product_id (routes/inventory.js, lines 64-137).
Validation mirrors lines 70-80; when no inventory row exists the
handler checks the product, lazily INSERTs a row and responds with the
product_id, quantity body (line 110); otherwise it updates the row and
responds with product_id, previous_quantity, new_quantity. -/
def setInventory (st : DBState) (pid : Nat) (v : InputVal) : Resp × DBState :=
  match jsParseInt v with
  | none => (.badRequest .newQuantityInvalid, st)
  | some n =>
    if n < 0 then (.badRequest .newQuantityInvalid, st)
    else
      match findVal st.inventory pid with
      | none =>
        match findVal st.products pid with
        | none => (.notFound .productNotFound, st)
        | some _ =>
          let stI := { st with inventory := st.inventory ++ [(pid, n)] }
          let stH := { stI with
                       history := stI.history ++ [HistEntry.mk pid n 0 n] }
          (.invCreated pid n, stH)
      | some prevQty =>
        let stU := { st with inventory := updateQty st.inventory pid n }
        let stH := { stU with
                     history := stU.history ++ [HistEntry.mk pid (n - prevQty) prevQty n] }
        (.invUpdated pid prevQty n, stH)

/-- One mutation request, for reasoning about sequential request
sequences.  `create` uses the non-faulting execution. -/
inductive Op where
  | create (cid : Nat) (price iq : Int)
  | sale (pid : Nat) (q : Int)
  | setInv (pid : Nat) (v : InputVal)
deriving DecidableEq, Repr

/-- State after one request, ignoring the response. -/
def runOp (st : DBState) : Op → DBState
  | .create cid price iq => (createProduct st cid price iq .noFail).2
  | .sale pid q => (recordSale st pid q).2
  | .setInv pid v => (setInventory st pid v).2

/-- State after a sequence of requests executed sequentially. -/
def runOps (st : DBState) : List Op → DBState
  | [] => st
  | op :: rest => runOps (runOp st op) rest

/-- History rows appended by a single request. -/
def appendedEntries (st : DBState) (op : Op) : List HistEntry :=
  (runOp st op).history.drop st.history.length

/-- Decides that along a request sequence no sale requests more than
the quantity available at its point of execution (no clamped sale). -/
def clampFreeB (st : DBState) : List Op → Bool
  | [] => true
  | op :: rest =>
    (match op with
     | .sale pid q => decide (q ≤ effQty st pid)
     | _ => true) && clampFreeB (runOp st op) rest

/-- Well-formedness of a database state: all product ids in use are
below the SERIAL counter, and each product's history is a strict chain
whose last `new_qty` equals the quantity readers currently see. -/
structure LedgerInv (st : DBState) : Prop where
  prodBound : ∀ p ∈ st.products, p.1 < st.nextId
  invBound : ∀ r ∈ st.inventory, r.1 < st.nextId
  histBound : ∀ e ∈ st.history, e.product_id < st.nextId
  chain : ∀ pid, Chained (histFor st.history pid)
  lastEff : ∀ pid, lastNew (histFor st.history pid) = effQty st pid

/-- The spec's ledger-sum invariant: the stored quantity equals the sum
of all `change_qty` for the product. -/
def SumInv (st : DBState) : Prop :=
  ∀ pid, effQty st pid = histSum st.history pid

/-- Local state of one in-flight POST /api/sales request in the
interleaved model: program counter over the handler's statements and
the locally captured price and current quantity.  Statement indices:
0 price SELECT, 1 sale INSERT, 2 inventory SELECT FOR UPDATE,
3 inventory UPDATE, 4 history INSERT, 5 done. -/
structure SaleThread where
  pid : Nat
  q : Int
  price : Int
  curr : Int
  pc : Nat
deriving DecidableEq, Repr

/-- One atomic statement of the sale handler.  Every `pool.query` is
its own auto-commit transaction, so the `FOR UPDATE` lock taken by
statement 2 is released when that statement commits; between
statements no lock is held and statements of concurrent requests
interleave freely. -/
def saleStep (st : DBState) (t : SaleThread) : DBState × SaleThread :=
  match t.pc with
  | 0 => (st, { t with price := (findVal st.products t.pid).getD 0, pc := 1 })
  | 1 => ({ st with sales := st.sales ++ [SaleRow.mk t.pid t.q (t.price * t.q)] },
          { t with pc := 2 })
  | 2 => (st, { t with curr := (findVal st.inventory t.pid).getD 0, pc := 3 })
  | 3 => ({ st with inventory :=
              updateQty st.inventory t.pid (max 0 (t.curr - t.q)) },
          { t with pc := 4 })
  | 4 => ({ st with history :=
              st.history ++
                [HistEntry.mk t.pid (-t.q) t.curr (max 0 (t.curr - t.q))] },
          { t with pc := 5 })
  | _ => (st, t)

/-- Interleaved execution of two sale requests under a schedule:
`true` runs the next statement of thread `a`, `false` of thread `b`. -/
def runSched : DBState → SaleThread → SaleThread → List Bool →
    DBState × SaleThread × SaleThread
  | st, a, b, [] => (st, a, b)
  | st, a, b, true :: rest =>
      let p := saleStep st a
      runSched p.1 p.2 b rest
  | st, a, b, false :: rest =>
      let p := saleStep st b
      runSched p.1 a p.2 rest

/-- The chain of history entries produced by n sequential unit sales
starting from quantity n: first entry n to n-1, down to 1 to 0. -/
def decSeq (pid : Nat) : Nat → List HistEntry
  | 0 => []
  | n + 1 => HistEntry.mk pid (-1) ((n : Int) + 1) (n : Int) :: decSeq pid n

/-- Empty database with one category (id 1). -/
def st0 : DBState :=
  { nextId := 1, categories := [1], products := [], inventory := [],
    history := [], sales := [] }

/-- Database holding one product (id 1, price 100) with inventory
quantity 2 and no history; used for concrete counterexamples. -/
def stC : DBState :=
  { nextId := 2, categories := [1], products := [(1, 100)],
    inventory := [(1, 2)], history := [], sales := [] }

/-- Database holding one product (id 1, price 100) with no inventory
row (lazily created inventory has not been initialised). -/
def stP : DBState :=
  { nextId := 2, categories := [1], products := [(1, 100)],
    inventory := [], history := [], sales := [] }

/-- Schedule interleaving two sale requests: thread A runs statements
0-2 (reading the current quantity), then thread B runs statements 0-2
(reading the same quantity), then each thread finishes its write and
history insert. -/
def lostUpdateSched : List Bool :=
  [true, true, true, false, false, false, true, true, false, false]

/-- A unit-sale request against product 1 at its first statement. -/
def unitSaleThread : SaleThread := SaleThread.mk 1 1 0 0 0

/-! ### Association-list and history helper lemmas -/

theorem findVal_append_of_none {l₁ : List (Nat × Int)} {k : Nat}
    (h : findVal l₁ k = none) (l₂ : List (Nat × Int)) :
    findVal (l₁ ++ l₂) k = findVal l₂ k := by
  induction l₁ with
  | nil => rfl
  | cons p rest ih =>
    obtain ⟨a, b⟩ := p
    simp only [findVal] at h ⊢
    split at h
    · exact absurd h (by simp)
    · rename_i hne
      rw [if_neg hne]
      exact ih h

theorem findVal_append_singleton_ne {l : List (Nat × Int)} {k k' : Nat}
    (h : k' ≠ k) (v : Int) :
    findVal (l ++ [(k, v)]) k' = findVal l k' := by
  induction l with
  | nil =>
    simp only [List.nil_append, findVal]
    rw [if_neg (Ne.symm h)]
  | cons p rest ih =>
    obtain ⟨a, b⟩ := p
    simp only [List.cons_append, findVal]
    split
    · rfl
    · exact ih

theorem findVal_append_singleton_self {l : List (Nat × Int)} {k : Nat}
    (h : findVal l k = none) (v : Int) :
    findVal (l ++ [(k, v)]) k = some v := by
  rw [findVal_append_of_none h]
  simp [findVal]

theorem findVal_cons (a : Nat) (b : Int) (rest : List (Nat × Int)) (key : Nat) :
    findVal ((a, b) :: rest) key =
      if a = key then some b else findVal rest key := rfl

theorem updateQty_cons (a : Nat) (b : Int) (rest : List (Nat × Int))
    (k : Nat) (q : Int) :
    updateQty ((a, b) :: rest) k q =
      (if a = k then (a, q) else (a, b)) :: updateQty rest k q := rfl

theorem findVal_updateQty_self (l : List (Nat × Int)) (k : Nat) (q : Int) :
    findVal (updateQty l k q) k = (findVal l k).map (fun _ => q) := by
  induction l with
  | nil => rfl
  | cons p rest ih =>
    obtain ⟨a, b⟩ := p
    rw [updateQty_cons]
    by_cases hak : a = k
    · rw [if_pos hak, findVal_cons, findVal_cons, if_pos hak, if_pos hak]
      rfl
    · rw [if_neg hak, findVal_cons, findVal_cons, if_neg hak, if_neg hak]
      exact ih

theorem findVal_updateQty_ne {k k' : Nat} (l : List (Nat × Int))
    (h : k' ≠ k) (q : Int) :
    findVal (updateQty l k q) k' = findVal l k' := by
  induction l with
  | nil => rfl
  | cons p rest ih =>
    obtain ⟨a, b⟩ := p
    rw [updateQty_cons]
    by_cases hak : a = k
    · have hak' : ¬ a = k' := fun h' => h (h' ▸ hak ▸ rfl)
      rw [if_pos hak, findVal_cons, findVal_cons, if_neg hak', if_neg hak']
      exact ih
    · rw [if_neg hak, findVal_cons, findVal_cons]
      by_cases hak' : a = k'
      · rw [if_pos hak', if_pos hak']
      · rw [if_neg hak', if_neg hak']
        exact ih

theorem updateQty_of_none {l : List (Nat × Int)} {k : Nat}
    (h : findVal l k = none) (q : Int) : updateQty l k q = l := by
  induction l with
  | nil => rfl
  | cons p rest ih =>
    obtain ⟨a, b⟩ := p
    simp only [findVal] at h
    split at h
    · exact absurd h (by simp)
    · rename_i hne
      simp only [updateQty, if_neg hne]
      rw [ih h]

theorem findVal_mem {l : List (Nat × Int)} {k : Nat} {v : Int}
    (h : findVal l k = some v) : (k, v) ∈ l := by
  induction l with
  | nil => simp [findVal] at h
  | cons p rest ih =>
    obtain ⟨a, b⟩ := p
    simp only [findVal] at h
    split at h
    · rename_i hak
      obtain rfl := hak
      obtain rfl : b = v := by simpa using h
      exact List.mem_cons_self _ _
    · exact List.mem_cons_of_mem _ (ih h)

theorem findVal_none_of_forall {l : List (Nat × Int)} {k : Nat}
    (h : ∀ r ∈ l, r.1 ≠ k) : findVal l k = none := by
  induction l with
  | nil => rfl
  | cons p rest ih =>
    obtain ⟨a, b⟩ := p
    simp only [findVal]
    rw [if_neg (h (a, b) (List.mem_cons_self _ _))]
    exact ih fun r hr => h r (List.mem_cons_of_mem _ hr)

theorem mem_updateQty {l : List (Nat × Int)} {k : Nat} {q : Int} {r : Nat × Int}
    (h : r ∈ updateQty l k q) : ∃ v, (r.1, v) ∈ l := by
  induction l with
  | nil => simp [updateQty] at h
  | cons p rest ih =>
    obtain ⟨a, b⟩ := p
    simp only [updateQty] at h
    rcases List.mem_cons.1 h with h1 | h1
    · by_cases hak : a = k
      · rw [if_pos hak] at h1
        subst h1
        exact ⟨b, List.mem_cons_self _ _⟩
      · rw [if_neg hak] at h1
        subst h1
        exact ⟨b, List.mem_cons_self _ _⟩
    · obtain ⟨v, hv⟩ := ih h1
      exact ⟨v, List.mem_cons_of_mem _ hv⟩

theorem histFor_append (l₁ l₂ : List HistEntry) (pid : Nat) :
    histFor (l₁ ++ l₂) pid = histFor l₁ pid ++ histFor l₂ pid := by
  induction l₁ with
  | nil => rfl
  | cons e rest ih =>
    simp only [List.cons_append, histFor, List.append_eq]
    split
    · rw [ih, List.cons_append]
    · exact ih

theorem histFor_singleton_self (e : HistEntry) :
    histFor [e] e.product_id = [e] := by
  simp [histFor]

theorem histFor_singleton_ne {e : HistEntry} {pid : Nat}
    (h : e.product_id ≠ pid) : histFor [e] pid = [] := by
  simp [histFor, h]

theorem histFor_nil_of_forall {l : List HistEntry} {pid : Nat}
    (h : ∀ e ∈ l, e.product_id ≠ pid) : histFor l pid = [] := by
  induction l with
  | nil => rfl
  | cons e rest ih =>
    simp only [histFor]
    rw [if_neg (h e (List.mem_cons_self _ _))]
    exact ih fun x hx => h x (List.mem_cons_of_mem _ hx)

theorem mem_of_mem_histFor {l : List HistEntry} {pid : Nat} {e : HistEntry}
    (h : e ∈ histFor l pid) : e ∈ l := by
  induction l with
  | nil => simp [histFor] at h
  | cons x rest ih =>
    simp only [histFor] at h
    split at h
    · rcases List.mem_cons.1 h with h1 | h1
      · exact h1 ▸ List.mem_cons_self _ _
      · exact List.mem_cons_of_mem _ (ih h1)
    · exact List.mem_cons_of_mem _ (ih h)

theorem lastNew_concat (l : List HistEntry) (e : HistEntry) :
    lastNew (l ++ [e]) = e.new_qty := by
  unfold lastNew
  rw [List.getLast?_concat]

theorem chained_snoc {l : List HistEntry} {e : HistEntry}
    (h : Chained l) (h2 : lastNew l = e.previous_qty) : Chained (l ++ [e]) := by
  rw [Chained, List.chain'_append]
  refine ⟨h, List.chain'_singleton e, ?_⟩
  intro x hx y hy
  obtain rfl : e = y := by simpa using hy
  have hlast : l.getLast? = some x := hx
  unfold lastNew at h2
  rw [hlast] at h2
  exact h2

/-! ### Handler branch characterisations -/

theorem recordSale_success (st : DBState) (pid : Nat) (price q : Int)
    (h0 : pid ≠ 0) (hq : 0 < q) (hp : findVal st.products pid = some price) :
    recordSale st pid q =
      (.createdSale pid q (price * q),
       { st with
         sales := st.sales ++ [SaleRow.mk pid q (price * q)],
         inventory := updateQty st.inventory pid (max 0 (effQty st pid - q)),
         history := st.history ++
           [HistEntry.mk pid (-q) (effQty st pid)
              (max 0 (effQty st pid - q))] }) := by
  unfold recordSale
  rw [if_neg h0, if_neg (not_le.mpr hq), hp]
  rfl

theorem setInventory_updateBranch (st : DBState) (pid : Nat) (v : InputVal)
    (n c : Int) (hv : jsParseInt v = some n) (hn : ¬ n < 0)
    (hc : findVal st.inventory pid = some c) :
    setInventory st pid v =
      (.invUpdated pid c n,
       { st with
         inventory := updateQty st.inventory pid n,
         history := st.history ++ [HistEntry.mk pid (n - c) c n] }) := by
  unfold setInventory
  rw [hv]
  simp only [if_neg hn]
  rw [hc]

theorem setInventory_createBranch (st : DBState) (pid : Nat) (v : InputVal)
    (n price : Int) (hv : jsParseInt v = some n) (hn : ¬ n < 0)
    (hc : findVal st.inventory pid = none)
    (hp : findVal st.products pid = some price) :
    setInventory st pid v =
      (.invCreated pid n,
       { st with
         inventory := st.inventory ++ [(pid, n)],
         history := st.history ++ [HistEntry.mk pid n 0 n] }) := by
  unfold setInventory
  rw [hv]
  simp only [if_neg hn]
  rw [hc, hp]

theorem createProduct_success (st : DBState) (cid : Nat) (price iq : Int)
    (h1 : ¬ price < 0) (h2 : cid ≠ 0) (h3 : ¬ iq < 0)
    (h4 : cid ∈ st.categories) :
    createProduct st cid price iq .noFail =
      (.createdProduct st.nextId price iq,
       { st with
         nextId := st.nextId + 1,
         products := st.products ++ [(st.nextId, price)],
         inventory := st.inventory ++ [(st.nextId, iq)],
         history := st.history ++ [HistEntry.mk st.nextId iq 0 iq] }) := by
  unfold createProduct
  rw [if_neg h1, if_neg h2, if_neg h3,
      if_neg (by simp [h4] : ¬ (cid ∉ st.categories ∨
        FailPoint.noFail = FailPoint.atProductInsert))]
  rfl

theorem recordSale_state (st : DBState) (pid : Nat) (q : Int) :
    (recordSale st pid q).2 = st ∨
    ∃ price, pid ≠ 0 ∧ 0 < q ∧ findVal st.products pid = some price ∧
      (recordSale st pid q).2 =
        { st with
          sales := st.sales ++ [SaleRow.mk pid q (price * q)],
          inventory := updateQty st.inventory pid (max 0 (effQty st pid - q)),
          history := st.history ++
            [HistEntry.mk pid (-q) (effQty st pid)
               (max 0 (effQty st pid - q))] } := by
  by_cases h0 : pid = 0
  · left
    unfold recordSale
    rw [if_pos h0]
  by_cases hq : q ≤ 0
  · left
    unfold recordSale
    rw [if_neg h0, if_pos hq]
  cases hp : findVal st.products pid with
  | none =>
    left
    unfold recordSale
    rw [if_neg h0, if_neg hq, hp]
  | some price =>
    right
    refine ⟨price, h0, not_le.mp hq, rfl, ?_⟩
    rw [recordSale_success st pid price q h0 (not_le.mp hq) hp]

theorem setInventory_state (st : DBState) (pid : Nat) (v : InputVal) :
    (setInventory st pid v).2 = st ∨
    (∃ n price, jsParseInt v = some n ∧ ¬ n < 0 ∧
       findVal st.inventory pid = none ∧
       findVal st.products pid = some price ∧
       (setInventory st pid v).2 =
         { st with
           inventory := st.inventory ++ [(pid, n)],
           history := st.history ++ [HistEntry.mk pid n 0 n] }) ∨
    (∃ n c, jsParseInt v = some n ∧ ¬ n < 0 ∧
       findVal st.inventory pid = some c ∧
       (setInventory st pid v).2 =
         { st with
           inventory := updateQty st.inventory pid n,
           history := st.history ++ [HistEntry.mk pid (n - c) c n] }) := by
  cases hv : jsParseInt v with
  | none =>
    left
    unfold setInventory
    rw [hv]
  | some n =>
    by_cases hn : n < 0
    · left
      unfold setInventory
      rw [hv]
      simp only [if_pos hn]
    cases hc : findVal st.inventory pid with
    | none =>
      cases hp : findVal st.products pid with
      | none =>
        left
        unfold setInventory
        rw [hv]
        simp only [if_neg hn]
        rw [hc, hp]
      | some price =>
        right; left
        exact ⟨n, price, rfl, hn, rfl, rfl,
          by rw [setInventory_createBranch st pid v n price hv hn hc hp]⟩
    | some c =>
      right; right
      exact ⟨n, c, rfl, hn, rfl,
        by rw [setInventory_updateBranch st pid v n c hv hn hc]⟩

theorem createProduct_state (st : DBState) (cid : Nat) (price iq : Int) :
    (createProduct st cid price iq .noFail).2 = st ∨
    (¬ price < 0 ∧ cid ≠ 0 ∧ ¬ iq < 0 ∧ cid ∈ st.categories ∧
     (createProduct st cid price iq .noFail).2 =
       { st with
         nextId := st.nextId + 1,
         products := st.products ++ [(st.nextId, price)],
         inventory := st.inventory ++ [(st.nextId, iq)],
         history := st.history ++ [HistEntry.mk st.nextId iq 0 iq] }) := by
  by_cases h1 : price < 0
  · left
    unfold createProduct
    rw [if_pos h1]
  by_cases h2 : cid = 0
  · left
    unfold createProduct
    rw [if_neg h1, if_pos h2]
  by_cases h3 : iq < 0
  · left
    unfold createProduct
    rw [if_neg h1, if_neg h2, if_pos h3]
  by_cases h4 : cid ∈ st.categories
  · right
    exact ⟨h1, h2, h3, h4,
      by rw [createProduct_success st cid price iq h1 h2 h3 h4]⟩
  · left
    unfold createProduct
    rw [if_neg h1, if_neg h2, if_neg h3,
        if_pos (Or.inl h4 : cid ∉ st.categories ∨
          FailPoint.noFail = FailPoint.atProductInsert)]

/-! ### Preservation of the ledger invariants -/

theorem findVal_inventory_fresh {st : DBState} (h : LedgerInv st) :
    findVal st.inventory st.nextId = none :=
  findVal_none_of_forall fun r hr => Nat.ne_of_lt (h.invBound r hr)

theorem chainLast_step {st st' : DBState} (e : HistEntry)
    (hh : st'.history = st.history ++ [e])
    (heff : ∀ p, effQty st' p =
      if p = e.product_id then e.new_qty else effQty st p)
    (hprev : e.previous_qty = effQty st e.product_id)
    (hchain : ∀ pid, Chained (histFor st.history pid))
    (hlast : ∀ pid, lastNew (histFor st.history pid) = effQty st pid) :
    (∀ pid, Chained (histFor st'.history pid)) ∧
    (∀ pid, lastNew (histFor st'.history pid) = effQty st' pid) := by
  constructor <;> intro pid
  · rw [hh, histFor_append]
    by_cases hp : e.product_id = pid
    · subst hp
      rw [histFor_singleton_self]
      exact chained_snoc (hchain _) (by rw [hlast]; exact hprev.symm)
    · rw [histFor_singleton_ne hp, List.append_nil]
      exact hchain _
  · rw [hh, histFor_append]
    by_cases hp : e.product_id = pid
    · subst hp
      rw [histFor_singleton_self, lastNew_concat, heff, if_pos rfl]
    · rw [histFor_singleton_ne hp, List.append_nil, hlast, heff,
          if_neg (fun h' => hp h'.symm)]

theorem ledgerInv_recordSale (st : DBState) (pid : Nat) (q : Int)
    (h : LedgerInv st) : LedgerInv (recordSale st pid q).2 := by
  rcases recordSale_state st pid q with heq | ⟨price, h0, hq, hp, heq⟩
  · rw [heq]; exact h
  · rw [heq]
    have heff : ∀ p,
        effQty { st with
          sales := st.sales ++ [SaleRow.mk pid q (price * q)],
          inventory := updateQty st.inventory pid (max 0 (effQty st pid - q)),
          history := st.history ++
            [HistEntry.mk pid (-q) (effQty st pid)
               (max 0 (effQty st pid - q))] } p =
        if p = pid then max 0 (effQty st pid - q) else effQty st p := by
      intro p
      by_cases hpp : p = pid
      · subst hpp
        rw [if_pos rfl]
        show (findVal (updateQty st.inventory p _) p).getD 0 = _
        rw [findVal_updateQty_self]
        cases hfv : findVal st.inventory p with
        | none =>
          show (0 : Int) = max 0 (effQty st p - q)
          have : effQty st p = 0 := by
            show (findVal st.inventory p).getD 0 = 0
            rw [hfv]; rfl
          rw [this]
          exact (max_eq_left (by omega)).symm
        | some c => rfl
      · rw [if_neg hpp]
        show (findVal (updateQty st.inventory pid _) p).getD 0 = _
        rw [findVal_updateQty_ne _ hpp]
        rfl
    obtain ⟨hchain, hlast⟩ :=
      chainLast_step (HistEntry.mk pid (-q) (effQty st pid)
          (max 0 (effQty st pid - q)))
        rfl heff rfl h.chain h.lastEff
    refine ⟨h.prodBound, ?_, ?_, hchain, hlast⟩
    · intro r hr
      obtain ⟨v, hv⟩ := mem_updateQty hr
      exact h.invBound (r.1, v) hv
    · intro x hx
      rcases List.mem_append.1 hx with hx | hx
      · exact h.histBound x hx
      · obtain rfl : x = HistEntry.mk pid (-q) (effQty st pid)
            (max 0 (effQty st pid - q)) := by simpa using hx
        exact h.prodBound (pid, price) (findVal_mem hp)

theorem ledgerInv_setInventory (st : DBState) (pid : Nat) (v : InputVal)
    (h : LedgerInv st) : LedgerInv (setInventory st pid v).2 := by
  rcases setInventory_state st pid v with heq |
    ⟨n, price, hv, hn, hc, hp, heq⟩ | ⟨n, c, hv, hn, hc, heq⟩
  · rw [heq]; exact h
  · rw [heq]
    have heff : ∀ p,
        effQty { st with
          inventory := st.inventory ++ [(pid, n)],
          history := st.history ++ [HistEntry.mk pid n 0 n] } p =
        if p = pid then n else effQty st p := by
      intro p
      by_cases hpp : p = pid
      · subst hpp
        rw [if_pos rfl]
        show (findVal (st.inventory ++ [(p, n)]) p).getD 0 = n
        rw [findVal_append_singleton_self hc]
        rfl
      · rw [if_neg hpp]
        show (findVal (st.inventory ++ [(pid, n)]) p).getD 0 = _
        rw [findVal_append_singleton_ne hpp]
        rfl
    obtain ⟨hchain, hlast⟩ :=
      chainLast_step (HistEntry.mk pid n 0 n) rfl heff
        (by show (0 : Int) = effQty st pid
            show (0 : Int) = (findVal st.inventory pid).getD 0
            rw [hc]; rfl)
        h.chain h.lastEff
    refine ⟨h.prodBound, ?_, ?_, hchain, hlast⟩
    · intro r hr
      rcases List.mem_append.1 hr with hr | hr
      · exact h.invBound r hr
      · obtain rfl : r = (pid, n) := by simpa using hr
        exact h.prodBound (pid, price) (findVal_mem hp)
    · intro x hx
      rcases List.mem_append.1 hx with hx | hx
      · exact h.histBound x hx
      · obtain rfl : x = HistEntry.mk pid n 0 n := by simpa using hx
        exact h.prodBound (pid, price) (findVal_mem hp)
  · rw [heq]
    have heff : ∀ p,
        effQty { st with
          inventory := updateQty st.inventory pid n,
          history := st.history ++ [HistEntry.mk pid (n - c) c n] } p =
        if p = pid then n else effQty st p := by
      intro p
      by_cases hpp : p = pid
      · subst hpp
        rw [if_pos rfl]
        show (findVal (updateQty st.inventory p n) p).getD 0 = n
        rw [findVal_updateQty_self, hc]
        rfl
      · rw [if_neg hpp]
        show (findVal (updateQty st.inventory pid n) p).getD 0 = _
        rw [findVal_updateQty_ne _ hpp]
        rfl
    obtain ⟨hchain, hlast⟩ :=
      chainLast_step (HistEntry.mk pid (n - c) c n) rfl heff
        (by show c = effQty st pid
            show c = (findVal st.inventory pid).getD 0
            rw [hc]; rfl)
        h.chain h.lastEff
    refine ⟨h.prodBound, ?_, ?_, hchain, hlast⟩
    · intro r hr
      obtain ⟨w, hw⟩ := mem_updateQty hr
      exact h.invBound (r.1, w) hw
    · intro x hx
      rcases List.mem_append.1 hx with hx | hx
      · exact h.histBound x hx
      · obtain rfl : x = HistEntry.mk pid (n - c) c n := by simpa using hx
        have : (pid, c) ∈ st.inventory := findVal_mem hc
        exact h.invBound (pid, c) this

theorem ledgerInv_createProduct (st : DBState) (cid : Nat) (price iq : Int)
    (h : LedgerInv st) : LedgerInv (createProduct st cid price iq .noFail).2 := by
  rcases createProduct_state st cid price iq with heq |
    ⟨h1, h2, h3, h4, heq⟩
  · rw [heq]; exact h
  · rw [heq]
    have hfresh : findVal st.inventory st.nextId = none :=
      findVal_inventory_fresh h
    have heff : ∀ p,
        effQty { st with
          nextId := st.nextId + 1,
          products := st.products ++ [(st.nextId, price)],
          inventory := st.inventory ++ [(st.nextId, iq)],
          history := st.history ++ [HistEntry.mk st.nextId iq 0 iq] } p =
        if p = st.nextId then iq else effQty st p := by
      intro p
      by_cases hpp : p = st.nextId
      · subst hpp
        rw [if_pos rfl]
        show (findVal (st.inventory ++ [(st.nextId, iq)]) st.nextId).getD 0 = iq
        rw [findVal_append_singleton_self hfresh]
        rfl
      · rw [if_neg hpp]
        show (findVal (st.inventory ++ [(st.nextId, iq)]) p).getD 0 = _
        rw [findVal_append_singleton_ne hpp]
        rfl
    obtain ⟨hchain, hlast⟩ :=
      chainLast_step (HistEntry.mk st.nextId iq 0 iq) rfl heff
        (by show (0 : Int) = effQty st st.nextId
            show (0 : Int) = (findVal st.inventory st.nextId).getD 0
            rw [hfresh]; rfl)
        h.chain h.lastEff
    refine ⟨?_, ?_, ?_, hchain, hlast⟩
    · intro p hp
      rcases List.mem_append.1 hp with hp | hp
      · exact Nat.lt_succ_of_lt (h.prodBound p hp)
      · obtain rfl : p = (st.nextId, price) := by simpa using hp
        exact Nat.lt_succ_self _
    · intro r hr
      rcases List.mem_append.1 hr with hr | hr
      · exact Nat.lt_succ_of_lt (h.invBound r hr)
      · obtain rfl : r = (st.nextId, iq) := by simpa using hr
        exact Nat.lt_succ_self _
    · intro x hx
      rcases List.mem_append.1 hx with hx | hx
      · exact Nat.lt_succ_of_lt (h.histBound x hx)
      · obtain rfl : x = HistEntry.mk st.nextId iq 0 iq := by simpa using hx
        exact Nat.lt_succ_self _

theorem ledgerInv_runOp (st : DBState) (op : Op) (h : LedgerInv st) :
    LedgerInv (runOp st op) := by
  cases op with
  | create cid price iq => exact ledgerInv_createProduct st cid price iq h
  | sale pid q => exact ledgerInv_recordSale st pid q h
  | setInv pid v => exact ledgerInv_setInventory st pid v h

theorem ledgerInv_runOps (st : DBState) (ops : List Op) (h : LedgerInv st) :
    LedgerInv (runOps st ops) := by
  induction ops generalizing st with
  | nil => exact h
  | cons op rest ih => exact ih _ (ledgerInv_runOp st op h)

/-! ### Preservation of the ledger-sum invariant on clamp-free traces -/

theorem histSum_snoc (l : List HistEntry) (e : HistEntry) (pid : Nat) :
    histSum (l ++ [e]) pid =
      histSum l pid + if e.product_id = pid then e.change_qty else 0 := by
  unfold histSum
  rw [histFor_append]
  by_cases hp : e.product_id = pid
  · rw [if_pos hp]
    have h1 : histFor [e] pid = [e] := by
      rw [← hp]
      exact histFor_singleton_self e
    rw [h1, List.map_append, List.sum_append]
    simp
  · rw [if_neg hp, histFor_singleton_ne hp, List.append_nil, add_zero]

theorem sumInv_runOp (st : DBState) (op : Op) (hI : LedgerInv st)
    (hS : SumInv st)
    (hc : ∀ pid q, op = .sale pid q → q ≤ effQty st pid) :
    SumInv (runOp st op) := by
  cases op with
  | sale pid q =>
    show SumInv (recordSale st pid q).2
    rcases recordSale_state st pid q with heq | ⟨price, h0, hq, hp, heq⟩
    · rw [heq]; exact hS
    · have hle : q ≤ effQty st pid := hc pid q rfl
      have hfv : ∃ c, findVal st.inventory pid = some c := by
        cases hfv : findVal st.inventory pid with
        | none =>
          exfalso
          have hz : effQty st pid = 0 := by
            unfold effQty
            rw [hfv]
            rfl
          omega
        | some c => exact ⟨c, rfl⟩
      obtain ⟨c, hfv⟩ := hfv
      have hceff : effQty st pid = c := by
        unfold effQty
        rw [hfv]
        rfl
      rw [heq]
      intro p
      show (findVal (updateQty st.inventory pid (max 0 (effQty st pid - q))) p).getD 0 = _
      rw [histSum_snoc]
      by_cases hpp : p = pid
      · subst hpp
        rw [findVal_updateQty_self, hfv]
        show max 0 (effQty st p - q) = _
        rw [if_pos rfl]
        have hhs : histSum st.history p = c := by rw [← hS p, hceff]
        rw [hhs, hceff, max_eq_right (by omega)]
        show c - q = c + -q
        omega
      · rw [findVal_updateQty_ne _ hpp,
            if_neg (fun h' : pid = p => hpp h'.symm), add_zero]
        exact hS p
  | create cid price iq =>
    show SumInv (createProduct st cid price iq .noFail).2
    rcases createProduct_state st cid price iq with heq |
      ⟨h1, h2, h3, h4, heq⟩
    · rw [heq]; exact hS
    · have hfresh : findVal st.inventory st.nextId = none :=
        findVal_inventory_fresh hI
      have hz : effQty st st.nextId = 0 := by
        unfold effQty
        rw [hfresh]
        rfl
      rw [heq]
      intro p
      show (findVal (st.inventory ++ [(st.nextId, iq)]) p).getD 0 = _
      rw [histSum_snoc]
      by_cases hpp : p = st.nextId
      · subst hpp
        rw [findVal_append_singleton_self hfresh, if_pos rfl]
        have hhs : histSum st.history st.nextId = 0 := by
          rw [← hS st.nextId, hz]
        rw [hhs]
        show iq = 0 + iq
        omega
      · rw [findVal_append_singleton_ne hpp,
            if_neg (fun h' : st.nextId = p => hpp h'.symm), add_zero]
        exact hS p
  | setInv pid v =>
    show SumInv (setInventory st pid v).2
    rcases setInventory_state st pid v with heq |
      ⟨n, price, hv, hn, hfv, hp, heq⟩ | ⟨n, c, hv, hn, hfv, heq⟩
    · rw [heq]; exact hS
    · have hz : effQty st pid = 0 := by
        unfold effQty
        rw [hfv]
        rfl
      rw [heq]
      intro p
      show (findVal (st.inventory ++ [(pid, n)]) p).getD 0 = _
      rw [histSum_snoc]
      by_cases hpp : p = pid
      · subst hpp
        rw [findVal_append_singleton_self hfv, if_pos rfl]
        have hhs : histSum st.history p = 0 := by rw [← hS p, hz]
        rw [hhs]
        show n = 0 + n
        omega
      · rw [findVal_append_singleton_ne hpp,
            if_neg (fun h' : pid = p => hpp h'.symm), add_zero]
        exact hS p
    · have hceff : effQty st pid = c := by
        unfold effQty
        rw [hfv]
        rfl
      rw [heq]
      intro p
      show (findVal (updateQty st.inventory pid n) p).getD 0 = _
      rw [histSum_snoc]
      by_cases hpp : p = pid
      · subst hpp
        rw [findVal_updateQty_self, hfv]
        show n = _
        rw [if_pos rfl]
        have hhs : histSum st.history p = c := by rw [← hS p, hceff]
        rw [hhs]
        show n = c + (n - c)
        omega
      · rw [findVal_updateQty_ne _ hpp,
            if_neg (fun h' : pid = p => hpp h'.symm), add_zero]
        exact hS p

theorem sumInv_runOps (st : DBState) (ops : List Op) (hI : LedgerInv st)
    (hS : SumInv st) (hc : clampFreeB st ops = true) :
    SumInv (runOps st ops) := by
  induction ops generalizing st with
  | nil => exact hS
  | cons op rest ih =>
    simp only [clampFreeB, Bool.and_eq_true] at hc
    obtain ⟨hc1, hc2⟩ := hc
    refine ih _ (ledgerInv_runOp st op hI) (sumInv_runOp st op hI hS ?_) hc2
    intro pid q hop
    subst hop
    exact of_decide_eq_true hc1

/-! ### Sequential unit-sale chains -/

theorem decSeq_length (pid : Nat) : ∀ n, (decSeq pid n).length = n := by
  intro n
  induction n with
  | zero => rfl
  | succ m ih => simp [decSeq, ih]

theorem mem_decSeq_prev {pid : Nat} :
    ∀ {n : Nat} {e : HistEntry},
      e ∈ decSeq pid n → e.previous_qty ≤ (n : Int) := by
  intro n
  induction n with
  | zero =>
    intro e h
    simp [decSeq] at h
  | succ m ih =>
    intro e h
    rcases List.mem_cons.1 h with h1 | h1
    · subst h1
      show (m : Int) + 1 ≤ ((m + 1 : Nat) : Int)
      push_cast
      omega
    · have := ih h1
      push_cast
      omega

theorem chained_decSeq (pid : Nat) : ∀ n, Chained (decSeq pid n) := by
  intro n
  induction n with
  | zero => exact List.chain'_nil
  | succ m ih =>
    rw [decSeq]
    refine List.chain'_cons'.mpr ⟨?_, ih⟩
    intro h hh
    cases m with
    | zero => simp [decSeq] at hh
    | succ k =>
      obtain rfl : HistEntry.mk pid (-1) ((k : Int) + 1) (k : Int) = h := by
        simpa [decSeq] using hh
      show ((k + 1 : Nat) : Int) = (k : Int) + 1
      push_cast
      ring

theorem nodup_decSeq (pid : Nat) : ∀ n, (decSeq pid n).Nodup := by
  intro n
  induction n with
  | zero => exact List.nodup_nil
  | succ m ih =>
    rw [decSeq]
    refine List.nodup_cons.2 ⟨?_, ih⟩
    intro hmem
    have hle := mem_decSeq_prev hmem
    simp only at hle
    omega

theorem runSales_general (pid : Nat) (price : Int) (hpid : pid ≠ 0) :
    ∀ (n : Nat) (st : DBState),
      findVal st.products pid = some price →
      findVal st.inventory pid = some (n : Int) →
      findVal (runOps st (List.replicate n (Op.sale pid 1))).inventory pid
          = some 0 ∧
      (runOps st (List.replicate n (Op.sale pid 1))).history =
        st.history ++ decSeq pid n ∧
      findVal (runOps st (List.replicate n (Op.sale pid 1))).products pid
          = some price := by
  intro n
  induction n with
  | zero =>
    intro st hp hi
    refine ⟨by simpa using hi, by simp [runOps, decSeq], hp⟩
  | succ m ih =>
    intro st hp hi
    have heff : effQty st pid = (m : Int) + 1 := by
      unfold effQty
      rw [hi]
      show ((m + 1 : Nat) : Int) = (m : Int) + 1
      push_cast
      ring
    have hw : max 0 (effQty st pid - 1) = (m : Int) := by
      rw [heff]
      have h1 : ((m : Int) + 1) - 1 = (m : Int) := by ring
      rw [h1]
      exact max_eq_right (by omega)
    have hstep := recordSale_success st pid price 1 hpid one_pos hp
    have h1 : (recordSale st pid 1).2.products = st.products := by
      rw [hstep]
    have h2 : (recordSale st pid 1).2.inventory =
        updateQty st.inventory pid (max 0 (effQty st pid - 1)) := by
      rw [hstep]
    have h3 : (recordSale st pid 1).2.history = st.history ++
        [HistEntry.mk pid (-1) (effQty st pid) (max 0 (effQty st pid - 1))] := by
      rw [hstep]
    have hp' : findVal (recordSale st pid 1).2.products pid = some price := by
      rw [h1]
      exact hp
    have hi' : findVal (recordSale st pid 1).2.inventory pid
        = some (m : Int) := by
      rw [h2, findVal_updateQty_self, hi]
      show some (max 0 (effQty st pid - 1)) = some (m : Int)
      rw [hw]
    have hrun : runOps st (List.replicate (m + 1) (Op.sale pid 1)) =
        runOps (recordSale st pid 1).2 (List.replicate m (Op.sale pid 1)) := by
      rw [List.replicate_succ]
      rfl
    obtain ⟨g1, g2, g3⟩ := ih (recordSale st pid 1).2 hp' hi'
    refine ⟨by rw [hrun]; exact g1, ?_, by rw [hrun]; exact g3⟩
    rw [hrun, g2, h3, List.append_assoc]
    have he : HistEntry.mk pid (-1) (effQty st pid)
          (max 0 (effQty st pid - 1)) =
        HistEntry.mk pid (-1) ((m : Int) + 1) (m : Int) := by
      rw [hw, heff]
    rw [he]
    rfl

/-! ### Initial-state facts and small helpers -/

theorem ledgerInv_st0 : LedgerInv st0 :=
  ⟨fun p hp => by simp [st0] at hp,
   fun r hr => by simp [st0] at hr,
   fun e he => by simp [st0] at he,
   fun _ => List.chain'_nil,
   fun _ => rfl⟩

theorem sumInv_st0 : SumInv st0 := fun _ => rfl

theorem appended_nil {st : DBState} {op : Op}
    (h : runOp st op = st) : appendedEntries st op = [] := by
  unfold appendedEntries
  rw [h, List.drop_length]

theorem appended_single {st : DBState} {op : Op} {e0 : HistEntry}
    (h : (runOp st op).history = st.history ++ [e0]) :
    appendedEntries st op = [e0] := by
  unfold appendedEntries
  rw [h, List.drop_left]

theorem histFor_decSeq (pid : Nat) :
    ∀ n, histFor (decSeq pid n) pid = decSeq pid n := by
  intro n
  induction n with
  | zero => rfl
  | succ m ih => simp [decSeq, histFor, ih]

/-! ### Claim theorems -/

/-- C1 (counterexample): recording a sale of 5 units on a product whose
current quantity is 2 clamps the stored quantity to 0, but the appended
history entry has change_qty = -5 (the requested quantity), not -2 (the
delta actually applied), contradicting the claim. -/
theorem claim_C1_counterexample :
    (recordSale stC 1 5).2.history = [HistEntry.mk 1 (-5) 2 0] ∧
    (recordSale stC 1 5).2.inventory = [(1, 0)] ∧
    (HistEntry.mk 1 (-5) 2 0).change_qty = -5 ∧ (-5 : Int) ≠ -2 := by
  decide

/-- C1 (amended): when a sale requests q units and the current quantity
is c with c < q, the stored quantity becomes 0 and the appended history
entry is (change_qty = -q, previous_qty = c, new_qty = 0); the ledger
records minus the requested quantity, not the clamped delta. -/
theorem claim_C1_amended (st : DBState) (pid : Nat) (price c q : Int)
    (h0 : pid ≠ 0) (hp : findVal st.products pid = some price)
    (hc : findVal st.inventory pid = some c) (hc0 : 0 ≤ c) (hq : c < q) :
    findVal (recordSale st pid q).2.inventory pid = some 0 ∧
    (recordSale st pid q).2.history =
      st.history ++ [HistEntry.mk pid (-q) c 0] := by
  have hqpos : 0 < q := lt_of_le_of_lt hc0 hq
  have hceff : effQty st pid = c := by
    unfold effQty
    rw [hc]
    rfl
  have hw : max 0 (effQty st pid - q) = 0 := by
    rw [hceff]
    exact max_eq_left (by omega)
  have hstep := recordSale_success st pid price q h0 hqpos hp
  have h2 : (recordSale st pid q).2.inventory =
      updateQty st.inventory pid (max 0 (effQty st pid - q)) := by
    rw [hstep]
  have h3 : (recordSale st pid q).2.history = st.history ++
      [HistEntry.mk pid (-q) (effQty st pid)
        (max 0 (effQty st pid - q))] := by
    rw [hstep]
  constructor
  · rw [h2, hw, findVal_updateQty_self, hc]
    rfl
  · rw [h3, hw, hceff]

/-- C1 (witness): the amended theorem applied to a product with
quantity 2 and a sale of 5. -/
theorem claim_C1_witness :
    (1 : Nat) ≠ 0 ∧ findVal stC.products 1 = some 100 ∧
    findVal stC.inventory 1 = some 2 ∧ (0 : Int) ≤ 2 ∧ (2 : Int) < 5 ∧
    (findVal (recordSale stC 1 5).2.inventory 1 = some 0 ∧
     (recordSale stC 1 5).2.history =
       stC.history ++ [HistEntry.mk 1 (-5) 2 0]) :=
  ⟨by decide, by decide, by decide, by decide, by decide,
   claim_C1_amended stC 1 100 2 5 (by decide) (by decide) (by decide)
     (by decide) (by decide)⟩

/-- C2 (counterexample): the history entry written by an oversold sale
violates new_qty = previous_qty + change_qty (0 is not 2 + (-5)). -/
theorem claim_C2_counterexample :
    appendedEntries stC (Op.sale 1 5) = [HistEntry.mk 1 (-5) 2 0] ∧
    (HistEntry.mk 1 (-5) 2 0).new_qty ≠
      (HistEntry.mk 1 (-5) 2 0).previous_qty +
        (HistEntry.mk 1 (-5) 2 0).change_qty := by
  decide

/-- C2 (amended): every history entry written by any of the three
mutation paths satisfies new_qty = max(0, previous_qty + change_qty)
and new_qty is non-negative; the un-clamped additive law holds for
product creation and set-inventory but fails for clamped sales. -/
theorem claim_C2_amended (st : DBState) (op : Op) :
    ∀ e ∈ appendedEntries st op,
      e.new_qty = max 0 (e.previous_qty + e.change_qty) ∧
      0 ≤ e.new_qty := by
  intro e he
  cases op with
  | sale pid q =>
    rcases recordSale_state st pid q with heq | ⟨price, h0, hq, hp, heq⟩
    · rw [appended_nil (show runOp st (Op.sale pid q) = st from heq)] at he
      exact absurd he (List.not_mem_nil e)
    · rw [appended_single (show (runOp st (Op.sale pid q)).history = _ from
          by rw [show runOp st (Op.sale pid q) = _ from heq])] at he
      obtain rfl : e = HistEntry.mk pid (-q) (effQty st pid)
          (max 0 (effQty st pid - q)) := by simpa using he
      refine ⟨?_, le_max_left _ _⟩
      show max 0 (effQty st pid - q) =
        max 0 (effQty st pid + -q)
      have harith : effQty st pid - q = effQty st pid + -q := by ring
      rw [harith]
  | create cid price iq =>
    rcases createProduct_state st cid price iq with heq |
      ⟨h1, h2, h3, h4, heq⟩
    · rw [appended_nil (show runOp st (Op.create cid price iq) = st from
          heq)] at he
      exact absurd he (List.not_mem_nil e)
    · rw [appended_single (show
          (runOp st (Op.create cid price iq)).history = _ from
          by rw [show runOp st (Op.create cid price iq) = _ from heq])] at he
      obtain rfl : e = HistEntry.mk st.nextId iq 0 iq := by simpa using he
      refine ⟨?_, by show (0 : Int) ≤ iq; omega⟩
      show iq = max 0 (0 + iq)
      rw [zero_add, max_eq_right (by omega)]
  | setInv pid v =>
    rcases setInventory_state st pid v with heq |
      ⟨n, price, hv, hn, hfv, hp, heq⟩ | ⟨n, c, hv, hn, hfv, heq⟩
    · rw [appended_nil (show runOp st (Op.setInv pid v) = st from heq)] at he
      exact absurd he (List.not_mem_nil e)
    · rw [appended_single (show (runOp st (Op.setInv pid v)).history = _ from
          by rw [show runOp st (Op.setInv pid v) = _ from heq])] at he
      obtain rfl : e = HistEntry.mk pid n 0 n := by simpa using he
      refine ⟨?_, by show (0 : Int) ≤ n; omega⟩
      show n = max 0 (0 + n)
      rw [zero_add, max_eq_right (by omega)]
    · rw [appended_single (show (runOp st (Op.setInv pid v)).history = _ from
          by rw [show runOp st (Op.setInv pid v) = _ from heq])] at he
      obtain rfl : e = HistEntry.mk pid (n - c) c n := by simpa using he
      refine ⟨?_, by show (0 : Int) ≤ n; omega⟩
      show n = max 0 (c + (n - c))
      have harith : c + (n - c) = n := by ring
      rw [harith, max_eq_right (by omega)]

/-- C2 (witness): the amended max-law evaluated on the clamped-sale
entry of the counterexample state. -/
theorem claim_C2_witness :
    HistEntry.mk 1 (-5) 2 0 ∈ appendedEntries stC (Op.sale 1 5) ∧
    ((HistEntry.mk 1 (-5) 2 0).new_qty =
       max 0 ((HistEntry.mk 1 (-5) 2 0).previous_qty +
         (HistEntry.mk 1 (-5) 2 0).change_qty) ∧
     0 ≤ (HistEntry.mk 1 (-5) 2 0).new_qty) :=
  ⟨by decide,
   claim_C2_amended stC (Op.sale 1 5) (HistEntry.mk 1 (-5) 2 0) (by decide)⟩

/-- C3 (counterexample): after creating a product with initial quantity
2 and recording a sale of 5, the stored quantity is 0 but the sum of
change_qty over its history is -3, so the sum invariant fails. -/
theorem claim_C3_counterexample :
    effQty (runOps st0 [Op.create 1 100 2, Op.sale 1 5]) 1 = 0 ∧
    histSum (runOps st0 [Op.create 1 100 2, Op.sale 1 5]).history 1 = -3 ∧
    (0 : Int) ≠ -3 := by
  decide

/-- C3 (amended): along any sequential request trace in which no sale
requests more than the quantity available at its point of execution,
the stored quantity equals the sum of change_qty over the product's
history; a clamped sale breaks the equality. -/
theorem claim_C3_amended (st : DBState) (ops : List Op)
    (hI : LedgerInv st) (hS : SumInv st) (hc : clampFreeB st ops = true) :
    SumInv (runOps st ops) :=
  sumInv_runOps st ops hI hS hc

/-- C3 (witness): the amended sum law on a clamp-free trace. -/
theorem claim_C3_witness :
    effQty (runOps st0 [Op.create 1 100 50, Op.sale 1 10,
      Op.setInv 1 (.int 5)]) 1 =
    histSum (runOps st0 [Op.create 1 100 50, Op.sale 1 10,
      Op.setInv 1 (.int 5)]).history 1 :=
  claim_C3_amended st0 [Op.create 1 100 50, Op.sale 1 10,
    Op.setInv 1 (.int 5)] ledgerInv_st0 sumInv_st0 (by decide) 1

/-- C4 (counterexample): when the inventory INSERT of product creation
fails, the handler responds 500 yet the product row remains persisted
(each statement is its own auto-commit transaction), so creation is not
all-or-nothing. -/
theorem claim_C4_counterexample :
    (createProduct st0 1 100 5 .atInventoryInsert).1 = Resp.serverError ∧
    (createProduct st0 1 100 5 .atInventoryInsert).2.products =
      [(1, 100)] ∧
    (createProduct st0 1 100 5 .atInventoryInsert).2.inventory = [] ∧
    (createProduct st0 1 100 5 .atInventoryInsert).2.history = [] := by
  decide

/-- C4 (amended): the three inserts of product creation are independent
auto-commit statements; a failure at the inventory insert leaves the
product row persisted with no inventory row and no history entry, and a
failure at the history insert leaves the product and inventory rows
persisted with no history entry, the response being the generic 500 in
both cases. -/
theorem claim_C4_amended (st : DBState) (cid : Nat) (price iq : Int)
    (h1 : ¬ price < 0) (h2 : cid ≠ 0) (h3 : ¬ iq < 0)
    (h4 : cid ∈ st.categories) :
    (createProduct st cid price iq .atInventoryInsert =
      (Resp.serverError,
       { st with nextId := st.nextId + 1,
                 products := st.products ++ [(st.nextId, price)] })) ∧
    (createProduct st cid price iq .atHistoryInsert =
      (Resp.serverError,
       { st with nextId := st.nextId + 1,
                 products := st.products ++ [(st.nextId, price)],
                 inventory := st.inventory ++ [(st.nextId, iq)] })) := by
  constructor
  · unfold createProduct
    rw [if_neg h1, if_neg h2, if_neg h3,
        if_neg (by simp [h4] : ¬ (cid ∉ st.categories ∨
          FailPoint.atInventoryInsert = FailPoint.atProductInsert))]
    rfl
  · unfold createProduct
    rw [if_neg h1, if_neg h2, if_neg h3,
        if_neg (by simp [h4] : ¬ (cid ∉ st.categories ∨
          FailPoint.atHistoryInsert = FailPoint.atProductInsert))]
    rfl

/-- C4 (witness): the amended theorem applied to the empty database. -/
theorem claim_C4_witness :
    ¬ (100 : Int) < 0 ∧ (1 : Nat) ≠ 0 ∧ ¬ (5 : Int) < 0 ∧
    1 ∈ st0.categories ∧
    ((createProduct st0 1 100 5 .atInventoryInsert =
       (Resp.serverError,
        { st0 with nextId := st0.nextId + 1,
                   products := st0.products ++ [(st0.nextId, 100)] })) ∧
     (createProduct st0 1 100 5 .atHistoryInsert =
       (Resp.serverError,
        { st0 with nextId := st0.nextId + 1,
                   products := st0.products ++ [(st0.nextId, 100)],
                   inventory := st0.inventory ++ [(st0.nextId, 5)] }))) :=
  ⟨by decide, by decide, by decide, by decide,
   claim_C4_amended st0 1 100 5 (by decide) (by decide) (by decide)
     (by decide)⟩

/-- C5 (counterexample): interleaving two unit sales on a product with
quantity 2 — each pool.query statement is atomic but the FOR UPDATE
lock is released when its own statement commits — lets both requests
read currentQuantity 2; the final quantity is 1 (a lost update, not 0)
and the two history entries are identical and unchained. -/
theorem claim_C5_counterexample :
    (runSched stC unitSaleThread unitSaleThread lostUpdateSched).2.1.curr
      = 2 ∧
    (runSched stC unitSaleThread unitSaleThread lostUpdateSched).2.2.curr
      = 2 ∧
    effQty (runSched stC unitSaleThread unitSaleThread lostUpdateSched).1 1
      = 1 ∧
    (runSched stC unitSaleThread unitSaleThread lostUpdateSched).1.history =
      [HistEntry.mk 1 (-1) 2 1, HistEntry.mk 1 (-1) 2 1] ∧
    ¬ Chained (runSched stC unitSaleThread unitSaleThread
        lostUpdateSched).1.history := by
  refine ⟨by decide, by decide, by decide, by decide, ?_⟩
  intro h
  rw [show (runSched stC unitSaleThread unitSaleThread
      lostUpdateSched).1.history =
      [HistEntry.mk 1 (-1) 2 1, HistEntry.mk 1 (-1) 2 1] from by decide] at h
  exact absurd (List.chain'_cons.mp h).1 (by decide)

/-- C5 (amended): under sequential execution, N unit sales against a
product with quantity N and empty history leave the quantity 0 and
produce exactly the N-step decrement chain, which is chained, duplicate
free and of length N; the claimed guarantee does not hold under
concurrent interleaving. -/
theorem claim_C5_amended (st : DBState) (pid : Nat) (price : Int)
    (n : Nat) (hpid : pid ≠ 0)
    (hp : findVal st.products pid = some price)
    (hi : findVal st.inventory pid = some (n : Int))
    (hh : histFor st.history pid = []) :
    effQty (runOps st (List.replicate n (Op.sale pid 1))) pid = 0 ∧
    histFor (runOps st (List.replicate n (Op.sale pid 1))).history pid =
      decSeq pid n ∧
    Chained (decSeq pid n) ∧ (decSeq pid n).Nodup ∧
    (decSeq pid n).length = n := by
  obtain ⟨g1, g2, g3⟩ := runSales_general pid price hpid n st hp hi
  refine ⟨?_, ?_, chained_decSeq pid n, nodup_decSeq pid n,
    decSeq_length pid n⟩
  · unfold effQty
    rw [g1]
    rfl
  · rw [g2, histFor_append, hh, List.nil_append, histFor_decSeq]

/-- C5 (witness): two sequential unit sales from quantity 2. -/
theorem claim_C5_witness :
    (1 : Nat) ≠ 0 ∧ findVal stC.products 1 = some 100 ∧
    findVal stC.inventory 1 = some ((2 : Nat) : Int) ∧
    histFor stC.history 1 = [] ∧
    (effQty (runOps stC (List.replicate 2 (Op.sale 1 1))) 1 = 0 ∧
     histFor (runOps stC (List.replicate 2 (Op.sale 1 1))).history 1 =
       decSeq 1 2 ∧
     Chained (decSeq 1 2) ∧ (decSeq 1 2).Nodup ∧
     (decSeq 1 2).length = 2) :=
  ⟨by decide, by decide, by decide, by decide,
   claim_C5_amended stC 1 100 2 (by decide) (by decide) (by decide)
     (by decide)⟩

/-- C6: for every product, after any sequence of requests executed
sequentially from a well-formed state, the history rows of that product
in chronological order form a strict chain (each entry's new_qty equals
the next entry's previous_qty). -/
theorem claim_C6 (st : DBState) (ops : List Op) (pid : Nat)
    (hI : LedgerInv st) :
    Chained (histFor (runOps st ops).history pid) :=
  (ledgerInv_runOps st ops hI).chain pid

/-- C6 (witness): the chain property on the spec's scenario trace:
create with 50, sell 10, set to 5. -/
theorem claim_C6_witness :
    Chained (histFor (runOps st0 [Op.create 1 100 50, Op.sale 1 10,
      Op.setInv 1 (.int 5)]).history 1) :=
  claim_C6 st0 [Op.create 1 100 50, Op.sale 1 10, Op.setInv 1 (.int 5)] 1
    ledgerInv_st0

/-- C7 (counterexample): a successful set-inventory call on a product
with no InventoryRecord responds with the lazy-creation body shape
(product_id, quantity), not (product_id, previous_quantity,
new_quantity) with previous_quantity 0 as the claim states. -/
theorem claim_C7_counterexample :
    (setInventory stP 1 (.int 5)).1 = Resp.invCreated 1 5 ∧
    (setInventory stP 1 (.int 5)).1 ≠ Resp.invUpdated 1 0 5 := by
  decide

/-- C7 (amended): a successful set-inventory call on a product that
already has an InventoryRecord responds with (product_id,
previous_quantity, new_quantity) where previous_quantity is the prior
quantity; when no InventoryRecord existed, the response is instead the
(product_id, quantity) shape of the lazy-creation branch. -/
theorem claim_C7_amended (st : DBState) (pid : Nat) (n c price : Int)
    (hn : ¬ n < 0) :
    (findVal st.inventory pid = some c →
      (setInventory st pid (.int n)).1 = Resp.invUpdated pid c n) ∧
    (findVal st.inventory pid = none →
      findVal st.products pid = some price →
      (setInventory st pid (.int n)).1 = Resp.invCreated pid n) := by
  constructor
  · intro hc
    rw [setInventory_updateBranch st pid (.int n) n c rfl hn hc]
  · intro hc hp
    rw [setInventory_createBranch st pid (.int n) n price rfl hn hc hp]

/-- C7 (witness): both response shapes at concrete states. -/
theorem claim_C7_witness :
    ¬ (5 : Int) < 0 ∧
    (setInventory stC 1 (.int 5)).1 = Resp.invUpdated 1 2 5 ∧
    (setInventory stP 1 (.int 5)).1 = Resp.invCreated 1 5 :=
  ⟨by decide,
   (claim_C7_amended stC 1 5 2 100 (by decide)).1 (by decide),
   (claim_C7_amended stP 1 5 0 100 (by decide)).2 (by decide) (by decide)⟩

/-- C8 (counterexample): a non-integer new_quantity (3.7) is not
rejected: parseInt truncates it to 3 and the update succeeds with a
persisted side effect, contradicting the claim that any non-integer
input fails with a 400. -/
theorem claim_C8_counterexample :
    jsParseInt (InputVal.decimal 3 true) = some 3 ∧
    (setInventory stC 1 (InputVal.decimal 3 true)).1 =
      Resp.invUpdated 1 2 3 ∧
    (setInventory stC 1 (InputVal.decimal 3 true)).2 ≠ stC := by
  decide

/-- C8 (amended): set-inventory responds 400 with no side effect when
new_quantity is null/undefined/unparsable or parses negative, and 404
with no side effect when the product does not exist; a non-integer
numeric value is truncated by parseInt and accepted. -/
theorem claim_C8_amended (st : DBState) (pid : Nat) (v : InputVal)
    (n : Int) :
    (jsParseInt v = none →
      setInventory st pid v = (Resp.badRequest .newQuantityInvalid, st)) ∧
    (jsParseInt v = some n → n < 0 →
      setInventory st pid v = (Resp.badRequest .newQuantityInvalid, st)) ∧
    (jsParseInt v = some n → ¬ n < 0 →
      findVal st.inventory pid = none →
      findVal st.products pid = none →
      setInventory st pid v = (Resp.notFound .productNotFound, st)) := by
  refine ⟨?_, ?_, ?_⟩
  · intro hv
    unfold setInventory
    rw [hv]
  · intro hv hn
    unfold setInventory
    rw [hv]
    simp only [if_pos hn]
  · intro hv hn hinv hp
    unfold setInventory
    rw [hv]
    simp only [if_neg hn]
    rw [hinv, hp]

/-- C8 (witness): the three error branches at concrete inputs. -/
theorem claim_C8_witness :
    setInventory stP 1 InputVal.null =
      (Resp.badRequest .newQuantityInvalid, stP) ∧
    setInventory stP 1 (InputVal.int (-2)) =
      (Resp.badRequest .newQuantityInvalid, stP) ∧
    setInventory st0 1 (InputVal.int 5) =
      (Resp.notFound .productNotFound, st0) :=
  ⟨(claim_C8_amended stP 1 .null 0).1 rfl,
   (claim_C8_amended stP 1 (.int (-2)) (-2)).2.1 rfl (by decide),
   (claim_C8_amended st0 1 (.int 5) 5).2.2 rfl (by decide) (by decide)
     (by decide)⟩

/-- C9: a sale on an existing product with no InventoryRecord row
succeeds with 201, creates no inventory row (the product still reads as
quantity 0), and appends a history entry with previous_qty 0, new_qty 0
and change_qty = -quantity. -/
theorem claim_C9 (st : DBState) (pid : Nat) (price q : Int)
    (h0 : pid ≠ 0) (hp : findVal st.products pid = some price)
    (hi : findVal st.inventory pid = none) (hq : 0 < q) :
    (recordSale st pid q).1 = Resp.createdSale pid q (price * q) ∧
    (recordSale st pid q).2.inventory = st.inventory ∧
    effQty (recordSale st pid q).2 pid = 0 ∧
    (recordSale st pid q).2.history =
      st.history ++ [HistEntry.mk pid (-q) 0 0] := by
  have hstep := recordSale_success st pid price q h0 hq hp
  have heff : effQty st pid = 0 := by
    unfold effQty
    rw [hi]
    rfl
  have hw : max 0 (effQty st pid - q) = 0 := by
    rw [heff]
    exact max_eq_left (by omega)
  have hinv : (recordSale st pid q).2.inventory = st.inventory := by
    rw [hstep]
    show updateQty st.inventory pid (max 0 (effQty st pid - q)) =
      st.inventory
    exact updateQty_of_none hi _
  have hhist : (recordSale st pid q).2.history = st.history ++
      [HistEntry.mk pid (-q) (effQty st pid)
        (max 0 (effQty st pid - q))] := by
    rw [hstep]
  refine ⟨by rw [hstep], hinv, ?_, ?_⟩
  · unfold effQty
    rw [hinv, hi]
    rfl
  · rw [hhist, hw, heff]

/-- C9 (witness): a sale of 3 on product 1, which has no inventory
row. -/
theorem claim_C9_witness :
    (1 : Nat) ≠ 0 ∧ findVal stP.products 1 = some 100 ∧
    findVal stP.inventory 1 = none ∧ (0 : Int) < 3 ∧
    ((recordSale stP 1 3).1 = Resp.createdSale 1 3 300 ∧
     (recordSale stP 1 3).2.inventory = stP.inventory ∧
     effQty (recordSale stP 1 3).2 1 = 0 ∧
     (recordSale stP 1 3).2.history =
       stP.history ++ [HistEntry.mk 1 (-3) 0 0]) :=
  ⟨by decide, by decide, by decide, by decide,
   claim_C9 stP 1 100 3 (by decide) (by decide) (by decide) (by decide)⟩

/-- C10: a create-product request that passes input validation but
references a non-existent category hits the foreign-key violation at
the products INSERT; the error reaches the global handler, which
responds with the generic 500 body, and no row is persisted. -/
theorem claim_C10 (st : DBState) (cid : Nat) (price iq : Int)
    (h1 : ¬ price < 0) (h2 : cid ≠ 0) (h3 : ¬ iq < 0)
    (h4 : cid ∉ st.categories) :
    createProduct st cid price iq .noFail = (Resp.serverError, st) := by
  unfold createProduct
  rw [if_neg h1, if_neg h2, if_neg h3, if_pos (Or.inl h4)]

/-- C10 (witness): creating a product under the unknown category 2. -/
theorem claim_C10_witness :
    ¬ (100 : Int) < 0 ∧ (2 : Nat) ≠ 0 ∧ ¬ (5 : Int) < 0 ∧
    2 ∉ st0.categories ∧
    createProduct st0 2 100 5 .noFail = (Resp.serverError, st0) :=
  ⟨by decide, by decide, by decide, by decide,
   claim_C10 st0 2 100 5 (by decide) (by decide) (by decide) (by decide)⟩
